import Mathlib

/-!
Shallow embedding of the wikimedia/labs-tools-shorturls statistics app
(src/app.py) and verification of its specification.

The core of the program is:
  - `list_dumps` / `latest_dump`: enumerate dump files matching the glob
    pattern `shorturls-*.gz` and sort them by filename;
  - `read_dump`: on a cache miss, decompress a dump, split it into lines,
    split each line at its first `|` into a short-code and a target URL,
    count the netloc of each URL, store the grand total under the key
    `"total"`, write the result to a cache file, and return it; on a cache
    hit, return the cached record verbatim.

Filesystem state is modelled explicitly by `FS`: `dumps` maps a dump path
to its decompressed, decoded text (gzip decompression is a bijection on
contents and is elided), and `cache` maps a cache-file name to the stored
Aggregate Record.  Python dicts are modelled as insertion-ordered
association lists with unique keys, which is exactly the data a Python
dict carries; `json.dump`/`json.load` preserve that data, so a cache
entry stores the record itself.  A raised exception is modelled by an
`Option`/failure result paired with the unchanged filesystem state.
-/

namespace ShortURLs

/-! ### Python string primitives used by app.py -/

/-- The line-boundary characters recognised by Python `str.splitlines`. -/
def isLineBreak (c : Char) : Bool :=
  c == '\n' || c == '\r' || c == '\x0b' || c == '\x0c' ||
  c == '\x1c' || c == '\x1d' || c == '\x1e' || c == '\u0085' ||
  c == '\u2028' || c == '\u2029'

/-- Worker for `splitlines`: accumulates the current line (reversed) and
emits a line at each boundary, pairing `\r\n` as a single boundary.  A
trailing boundary does not produce a final empty line. -/
def splitlinesGo : List Char → List Char → List (List Char)
  | [], acc => if acc.isEmpty then [] else [acc.reverse]
  | '\r' :: '\n' :: rest, acc => acc.reverse :: splitlinesGo rest []
  | c :: rest, acc =>
    if isLineBreak c then
      acc.reverse :: splitlinesGo rest []
    else
      splitlinesGo rest (c :: acc)

/-- Python `str.splitlines` (used at app.py line 74). -/
def splitlines (cs : List Char) : List (List Char) :=
  splitlinesGo cs []

/-- Worker for `splitFirst`. -/
def splitFirstGo (sep : Char) : List Char → List Char → Option (List Char × List Char)
  | [], _ => none
  | c :: rest, acc =>
    if c == sep then some (acc.reverse, rest) else splitFirstGo sep rest (c :: acc)

/-- Split a string at the first occurrence of `sep`, returning the parts
before and after it, or `none` when `sep` does not occur.  `splitFirst '|'`
models Python `line.split('|', 1)` followed by unpacking into a 2-tuple
(app.py line 75): when the separator is absent the unpacking raises
`ValueError`, modelled by `none`. -/
def splitFirst (sep : Char) (cs : List Char) : Option (List Char × List Char) :=
  splitFirstGo sep cs []

/-! ### urllib.parse.urlparse — netloc extraction

`read_dump` only uses `urlparse(url).netloc`.  The following definitions
model the netloc computation of CPython `urllib.parse.urlsplit`: remove the
unsafe bytes tab/CR/LF, strip a syntactically valid scheme, and when the
remainder starts with `//`, take everything up to the first of `/`, `?`,
`#`; mismatched square brackets in the netloc raise `ValueError` (modelled
by `none`).  Otherwise the netloc is the empty string.  (The NFKC netloc
check and the WHATWG leading/trailing control-character strip only act on
inputs that are not exercised here and are elided.) -/

/-- The characters allowed in a URL scheme (`scheme_chars` in urllib). -/
def isSchemeChar (c : Char) : Bool :=
  c.isAlpha || c.isDigit || c == '+' || c == '-' || c == '.'

/-- urllib removes tab, CR and LF from the URL before parsing. -/
def removeUnsafeBytes (url : List Char) : List Char :=
  url.filter (fun c => !(c == '\t' || c == '\r' || c == '\n'))

/-- Strip `scheme:` from the front of the URL when the part before the
first `:` is nonempty, starts with an ASCII letter, and consists of scheme
characters only; otherwise leave the URL unchanged. -/
def stripScheme (url : List Char) : List Char :=
  match splitFirst ':' url with
  | none => url
  | some (before, after) =>
    match before with
    | [] => url
    | c :: _ => if c.isAlpha && before.all isSchemeChar then after else url

/-- A netloc character is anything up to the first `/`, `?` or `#`. -/
def notDelim (c : Char) : Bool :=
  !(c == '/' || c == '?' || c == '#')

/-- Model of `urlparse(url).netloc` (app.py lines 76-77); `none` models the
`ValueError` raised on a netloc with mismatched square brackets. -/
def urlparse_netloc (url : List Char) : Option String :=
  match stripScheme (removeUnsafeBytes url) with
  | '/' :: '/' :: rest =>
    let netloc := rest.takeWhile notDelim
    if (netloc.contains '[' && !netloc.contains ']') ||
        (netloc.contains ']' && !netloc.contains '[') then none
    else some (String.mk netloc)
  | _ => some ""

/-! ### Python dicts as insertion-ordered association lists -/

/-- Dict lookup: `d[k]` / `d.get(k)`. -/
def dict_get {α : Type} : List (String × α) → String → Option α
  | [], _ => none
  | (k2, v) :: rest, k => if k2 = k then some v else dict_get rest k

/-- Dict assignment `d[k] = v`: overwrite in place, or append a new key. -/
def dict_set {α : Type} : List (String × α) → String → α → List (String × α)
  | [], k, v => [(k, v)]
  | (k2, v2) :: rest, k, v =>
    if k2 = k then (k2, v) :: rest else (k2, v2) :: dict_set rest k v

/-- Model of `data[k] += 1` on a `defaultdict(int)`: increment in place, or append
the new key with count 1. -/
def dict_incr : List (String × Nat) → String → List (String × Nat)
  | [], k => [(k, 1)]
  | (k2, v) :: rest, k =>
    if k2 = k then (k2, v + 1) :: rest else (k2, v) :: dict_incr rest k

/-- Model of `sum(data.values())` (app.py line 79). -/
def sumValues (data : List (String × Nat)) : Nat :=
  (data.map Prod.snd).sum

/-! ### read_dump -/

/-- The netloc counted for one dump line: split the line at its first `|`,
discard the short-code, and extract the target URL's netloc.  `none`
models the `ValueError` raised on a line without `|` (or by `urlparse`). -/
def lineNetloc (line : List Char) : Option String :=
  match splitFirst '|' line with
  | none => none
  | some (_, url) => urlparse_netloc url

/-- The aggregation loop of `read_dump` (app.py lines 74-77): fold the
lines into the running `defaultdict(int)`, failing on the first bad line. -/
def processLines : List (String × Nat) → List (List Char) → Option (List (String × Nat))
  | data, [] => some data
  | data, line :: rest =>
    match lineNetloc line with
    | none => none
    | some n => processLines (dict_incr data n) rest

/-- The cache-miss computation of `read_dump` (app.py lines 71-80): count
netlocs over all lines of the decompressed text, then store the sum of all
counts under the key `"total"`. -/
def read_dump_compute (text : String) : Option (List (String × Nat)) :=
  match processLines [] (splitlines text.data) with
  | none => none
  | some data => some (dict_set data "total" (sumValues data))

/-- Filesystem state: decompressed dump contents by path, and the cache
directory as a map from cache-file name to stored Aggregate Record. -/
structure FS where
  dumps : List (String × String)
  cache : List (String × List (String × Nat))
deriving DecidableEq

/-- Model of `cached_name` (app.py lines 62-63): append `.json` to the dump name. -/
def cached_name (name : String) : String :=
  name ++ ".json"

/-- Model of `read_dump` (app.py lines 66-84).  Returns the Aggregate Record and
the possibly-updated filesystem; a raised exception is `(none, fs)` — no
record and no change to the filesystem, since `read_dump` raises before
opening the cache file for writing. -/
def read_dump (fs : FS) (name : String) : Option (List (String × Nat)) × FS :=
  match dict_get fs.cache (cached_name name) with
  | some r => (some r, fs)
  | none =>
    match dict_get fs.dumps name with
    | none => (none, fs)
    | some text =>
      match read_dump_compute text with
      | none => (none, fs)
      | some data =>
        (some data, { dumps := fs.dumps, cache := dict_set fs.cache (cached_name name) data })

/-! ### list_dumps / latest_dump -/

/-- Membership in `DUMPS.glob('shorturls-*.gz')` (app.py line 55): `*` matches any (possibly
empty) run of characters, so a name matches exactly when it is
`shorturls-` ++ mid ++ `.gz`, i.e. has that 10-character prefix, that
3-character suffix, and length at least 13. -/
def matchesGlob (f : String) : Bool :=
  f.data.take 10 == "shorturls-".data &&
  f.data.drop (f.data.length - 3) == ".gz".data &&
  decide (13 ≤ f.data.length)

/-- Decidability of `String` order through the character list, so that
sorting concrete filenames reduces in the kernel. -/
def strLeDec : DecidableRel (fun a b : String => a ≤ b) :=
  fun a b => decidable_of_iff (¬ b.toList < a.toList) (not_congr String.lt_iff_toList_lt).symm

/-- Model of `list_dumps` (app.py lines 54-55): the matching files sorted ascending.
Paths in one directory compare by filename, and Python string order is
code-point lexicographic, as is Lean's `String` order. -/
def list_dumps (files : List String) : List String :=
  @List.insertionSort String (fun a b => a ≤ b) strLeDec (files.filter matchesGlob)

/-- Model of `latest_dump` (app.py lines 58-59): `list_dumps()[-1]`; `none` models
the `IndexError` raised on an empty list. -/
def latest_dump (files : List String) : Option String :=
  (list_dumps files).getLast?

/-- Model of `dump.name[10:-3]` (app.py line 92): the date substring of a dump
filename. -/
def datepart (f : String) : String :=
  String.mk ((f.data.drop 10).take (f.data.length - 13))

/-- Decimal value of a digit character. -/
def digitVal (c : Char) : Nat :=
  c.toNat - 48

/-- Decimal value of a digit string, accumulator style. -/
def natOfDigits : List Char → Nat → Nat
  | [], n => n
  | c :: rest, n => natOfDigits rest (n * 10 + digitVal c)

/-- The date embedded in a dump filename, as the number YYYYMMDD; ordering
by this number is chronological ordering of the embedded dates. -/
def dateNat (f : String) : Nat :=
  natOfDigits (datepart f).data 0

/-- A validly-named dump file per the convention `shorturls-YYYYMMDD.gz`:
length 21, the fixed prefix and suffix, and eight digits in between. -/
def validDumpName (f : String) : Bool :=
  f.data.length == 21 &&
  f.data.take 10 == "shorturls-".data &&
  f.data.drop 18 == ".gz".data &&
  ((f.data.drop 10).take 8).all Char.isDigit

/-! ### Dictionary lemmas -/

theorem dict_get_dict_set {α : Type} (d : List (String × α)) (k k2 : String) (v : α) :
    dict_get (dict_set d k v) k2 = if k2 = k then some v else dict_get d k2 := by
  induction d with
  | nil =>
    by_cases h : k = k2
    · subst h; simp [dict_set, dict_get]
    · simp [dict_set, dict_get, h, Ne.symm h]
  | cons p rest ih =>
    obtain ⟨ks, vs⟩ := p
    by_cases h1 : ks = k
    · subst h1
      by_cases h2 : ks = k2
      · subst h2; simp [dict_set, dict_get]
      · simp [dict_set, dict_get, h2, Ne.symm h2]
    · by_cases h2 : ks = k2
      · subst h2
        simp [dict_set, dict_get, h1, Ne.symm h1]
      · simp [dict_set, dict_get, h1, h2, ih]

theorem dict_get_dict_incr (d : List (String × Nat)) (k k2 : String) :
    dict_get (dict_incr d k) k2 =
      if k2 = k then some ((dict_get d k).getD 0 + 1) else dict_get d k2 := by
  induction d with
  | nil =>
    by_cases h : k = k2
    · subst h; simp [dict_incr, dict_get]
    · simp [dict_incr, dict_get, h, Ne.symm h]
  | cons p rest ih =>
    obtain ⟨ks, vs⟩ := p
    by_cases h1 : ks = k
    · subst h1
      by_cases h2 : ks = k2
      · subst h2; simp [dict_incr, dict_get]
      · simp [dict_incr, dict_get, h2, Ne.symm h2]
    · by_cases h2 : ks = k2
      · subst h2
        simp [dict_incr, dict_get, h1, Ne.symm h1]
      · simp [dict_incr, dict_get, h1, h2, ih]

theorem dict_set_absent {α : Type} (d : List (String × α)) (k : String) (v : α)
    (h : dict_get d k = none) : dict_set d k v = d ++ [(k, v)] := by
  induction d with
  | nil => simp [dict_set]
  | cons p rest ih =>
    obtain ⟨ks, vs⟩ := p
    by_cases h1 : ks = k
    · simp [dict_get, h1] at h
    · simp [dict_get, h1] at h
      simp [dict_set, h1, ih h]

theorem dict_get_none_iff {α : Type} (d : List (String × α)) (k : String) :
    dict_get d k = none ↔ ∀ p ∈ d, p.1 ≠ k := by
  induction d with
  | nil => simp [dict_get]
  | cons p rest ih =>
    obtain ⟨ks, vs⟩ := p
    by_cases h1 : ks = k <;> simp [dict_get, h1, ih]

theorem sumValues_dict_incr (d : List (String × Nat)) (k : String) :
    sumValues (dict_incr d k) = sumValues d + 1 := by
  induction d with
  | nil => simp [dict_incr, sumValues]
  | cons p rest ih =>
    obtain ⟨ks, vs⟩ := p
    by_cases h1 : ks = k
    · simp [dict_incr, h1, sumValues]
      omega
    · simp [dict_incr, h1, sumValues] at ih ⊢
      omega

/-! ### processLines lemmas -/

/-- Combine an optional stored count with the number of further
occurrences: absent keys stay absent only when nothing is added. -/
def mergeCount : Option Nat → Nat → Option Nat
  | o, 0 => o
  | none, n + 1 => some (n + 1)
  | some v, n + 1 => some (v + (n + 1))

theorem mergeCount_some (v : Nat) (m : Nat) : mergeCount (some v) m = some (v + m) := by
  cases m <;> simp [mergeCount]

theorem mergeCount_succ (o : Option Nat) (m : Nat) :
    mergeCount o (m + 1) = some (o.getD 0 + (m + 1)) := by
  cases o <;> simp [mergeCount]

/-- What the aggregation loop computes at each key: the stored count plus
the number of processed lines whose URL has that netloc. -/
theorem processLines_get (ls : List (List Char)) :
    ∀ d d2, processLines d ls = some d2 → ∀ k,
      dict_get d2 k = mergeCount (dict_get d k) ((ls.filterMap lineNetloc).count k) := by
  induction ls with
  | nil =>
    intro d d2 h k
    simp [processLines] at h
    subst h
    simp [mergeCount]
  | cons line rest ih =>
    intro d d2 h k
    simp only [processLines] at h
    cases hn : lineNetloc line with
    | none => rw [hn] at h; exact absurd h (by simp)
    | some n =>
      rw [hn] at h
      have hrec := ih (dict_incr d n) d2 h k
      rw [dict_get_dict_incr] at hrec
      by_cases hk : k = n
      · subst hk
        rw [if_pos rfl] at hrec
        have hc : List.count k (k :: List.filterMap lineNetloc rest) =
            List.count k (List.filterMap lineNetloc rest) + 1 := by
          simp [List.count_cons]
        rw [List.filterMap_cons_some hn, hc, mergeCount_succ, hrec, mergeCount_some]
        simp only [Option.some.injEq]
        omega
      · rw [if_neg hk] at hrec
        have hc : List.count k (n :: List.filterMap lineNetloc rest) =
            List.count k (List.filterMap lineNetloc rest) := by
          simp [List.count_cons, Ne.symm hk]
        rw [List.filterMap_cons_some hn, hc, hrec]

/-- The aggregation loop adds exactly one to the total count per line. -/
theorem processLines_sum (ls : List (List Char)) :
    ∀ d d2, processLines d ls = some d2 → sumValues d2 = sumValues d + ls.length := by
  induction ls with
  | nil =>
    intro d d2 h
    simp [processLines] at h
    subst h
    simp
  | cons line rest ih =>
    intro d d2 h
    simp only [processLines] at h
    cases hn : lineNetloc line with
    | none => rw [hn] at h; exact absurd h (by simp)
    | some n =>
      rw [hn] at h
      have := ih (dict_incr d n) d2 h
      rw [this, sumValues_dict_incr]
      simp [List.length_cons]
      omega

/-- One bad line anywhere fails the whole aggregation loop. -/
theorem processLines_fail (ls : List (List Char)) (line : List Char)
    (hmem : line ∈ ls) (hbad : lineNetloc line = none) :
    ∀ d, processLines d ls = none := by
  induction ls with
  | nil => cases hmem
  | cons head rest ih =>
    intro d
    rcases List.mem_cons.mp hmem with heq | hmem2
    · subst heq
      simp [processLines, hbad]
    · simp only [processLines]
      cases hn : lineNetloc head with
      | none => simp
      | some n => simpa using ih hmem2 (dict_incr d n)

/-! ### Claims about read_dump -/

/-- C1: for every Aggregate Record computed by `read_dump` on a cache miss,
the sum of the counts stored under all keys other than `"total"` equals the
value stored under the `"total"` key, provided no line's target URL has a
netloc literally equal to the string `"total"`. -/
theorem read_dump_total_sum (text : String) (r : List (String × Nat))
    (hno : ∀ line ∈ splitlines text.data, lineNetloc line ≠ some "total")
    (h : read_dump_compute text = some r) :
    dict_get r "total" =
      some (((r.filter (fun p => p.1 != "total")).map Prod.snd).sum) := by
  unfold read_dump_compute at h
  cases hp : processLines [] (splitlines text.data) with
  | none => rw [hp] at h; exact absurd h (by simp)
  | some data =>
    rw [hp] at h
    simp only [Option.some.injEq] at h
    subst h
    have htot : dict_get data "total" = none := by
      have hg := processLines_get (splitlines text.data) [] data hp "total"
      have hcount : ((splitlines text.data).filterMap lineNetloc).count "total" = 0 := by
        rw [List.count_eq_zero]
        intro hmem
        obtain ⟨line, hline, hsome⟩ := List.mem_filterMap.mp hmem
        exact hno line hline hsome
      rw [hcount] at hg
      simpa [dict_get, mergeCount] using hg
    rw [dict_get_dict_set, if_pos rfl]
    rw [dict_set_absent data "total" (sumValues data) htot]
    have hdata : data.filter (fun p => p.1 != "total") = data := by
      rw [List.filter_eq_self]
      intro p hp2
      simpa using (dict_get_none_iff data "total").mp htot p hp2
    rw [List.filter_append, hdata]
    simp [sumValues]

/-- C1 witness. -/
theorem read_dump_total_sum_witness :
    dict_get [("x.org", 2), ("total", 2)] "total" =
      some ((([("x.org", 2), ("total", 2)] : List (String × Nat)).filter
        (fun p => p.1 != "total")).map Prod.snd).sum :=
  read_dump_total_sum "a|https://x.org/p\nb|https://x.org/q"
    [("x.org", 2), ("total", 2)] (by decide) (by decide)

/-- C2: with an empty cache, `read_dump` on a dump whose decompressed
content is the three lines
`abc|https://en.wikipedia.org/wiki/X`, `def|https://commons.wikimedia.org/wiki/Y`,
`ghi|https://en.wikipedia.org/wiki/Z` returns exactly the mapping
en.wikipedia.org ↦ 2, commons.wikimedia.org ↦ 1, total ↦ 3. -/
theorem read_dump_example_three_lines :
    (read_dump
      ⟨[("shorturls-20190101.gz",
         "abc|https://en.wikipedia.org/wiki/X\ndef|https://commons.wikimedia.org/wiki/Y\nghi|https://en.wikipedia.org/wiki/Z")],
        []⟩
      "shorturls-20190101.gz").1 =
    some [("en.wikipedia.org", 2), ("commons.wikimedia.org", 1), ("total", 3)] := by
  rfl

/-- C3 counterexample: a dump containing an empty line among well-formed
lines does not yield the aggregate of the well-formed lines — the read of
the dump with the empty line fails outright (the empty line has no `|`, so
the tuple unpacking raises), while the same dump without the empty line
aggregates normally. -/
theorem read_dump_empty_line_counterexample :
    read_dump_compute
        "abc|https://en.wikipedia.org/wiki/X\n\ndef|https://commons.wikimedia.org/wiki/Y" = none ∧
    read_dump_compute
        "abc|https://en.wikipedia.org/wiki/X\ndef|https://commons.wikimedia.org/wiki/Y" =
      some [("en.wikipedia.org", 1), ("commons.wikimedia.org", 1), ("total", 2)] :=
  ⟨rfl, rfl⟩

/-- C3 (amended): `read_dump` on a cache miss processes every line produced
by `splitlines` (a trailing line terminator yields no final empty line);
each line is split at its first `|` and its URL's netloc counter is
incremented, but an empty line — which can only arise from consecutive
line boundaries — has no `|` and makes the whole read fail with a parse
error instead of contributing nothing. -/
theorem read_dump_empty_line_fails (text : String)
    (h : [] ∈ splitlines text.data) : read_dump_compute text = none := by
  have hbad : lineNetloc ([] : List Char) = none := rfl
  have hfail := processLines_fail (splitlines text.data) [] h hbad []
  simp [read_dump_compute, hfail]

/-- C3 witness for the amended claim. -/
theorem read_dump_empty_line_fails_witness :
    read_dump_compute "a|https://x.org/\n\nb|https://y.org/" = none :=
  read_dump_empty_line_fails "a|https://x.org/\n\nb|https://y.org/" (by decide)

/-- C4: on a cache miss, `read_dump` writes exactly one cache entry, keyed
by `cached_name` of the dump; a second invocation on the same dump finds
that entry, returns it verbatim, and leaves the filesystem (hence the
cache file) unchanged. -/
theorem read_dump_cache_write_once (fs : FS) (name : String)
    (r : List (String × Nat)) (fs2 : FS)
    (hmiss : dict_get fs.cache (cached_name name) = none)
    (h : read_dump fs name = (some r, fs2)) :
    fs2.cache = fs.cache ++ [(cached_name name, r)] ∧
    read_dump fs2 name = (some r, fs2) := by
  unfold read_dump at h
  simp only [hmiss] at h
  cases ht : dict_get fs.dumps name with
  | none =>
    simp only [ht] at h
    exact absurd h (by simp)
  | some text =>
    simp only [ht] at h
    cases hc : read_dump_compute text with
    | none =>
      simp only [hc] at h
      exact absurd h (by simp)
    | some data =>
      simp only [hc] at h
      simp only [Prod.mk.injEq, Option.some.injEq] at h
      obtain ⟨hdr, hfs⟩ := h
      subst hdr
      constructor
      · rw [← hfs]
        simpa using dict_set_absent fs.cache (cached_name name) data hmiss
      · have hhit : dict_get fs2.cache (cached_name name) = some data := by
          rw [← hfs]
          simp [dict_get_dict_set]
        unfold read_dump
        rw [hhit]

/-- C4 witness. -/
theorem read_dump_cache_write_once_witness :
    (⟨[("shorturls-20190103.gz", "q|https://a.example/z")],
      [("shorturls-20190103.gz.json", [("a.example", 1), ("total", 1)])]⟩ : FS).cache =
      (⟨[("shorturls-20190103.gz", "q|https://a.example/z")], []⟩ : FS).cache ++
        [(cached_name "shorturls-20190103.gz", [("a.example", 1), ("total", 1)])] ∧
    read_dump ⟨[("shorturls-20190103.gz", "q|https://a.example/z")],
        [("shorturls-20190103.gz.json", [("a.example", 1), ("total", 1)])]⟩
      "shorturls-20190103.gz" =
      (some [("a.example", 1), ("total", 1)],
       ⟨[("shorturls-20190103.gz", "q|https://a.example/z")],
        [("shorturls-20190103.gz.json", [("a.example", 1), ("total", 1)])]⟩) :=
  read_dump_cache_write_once
    ⟨[("shorturls-20190103.gz", "q|https://a.example/z")], []⟩ "shorturls-20190103.gz"
    [("a.example", 1), ("total", 1)]
    ⟨[("shorturls-20190103.gz", "q|https://a.example/z")],
     [("shorturls-20190103.gz.json", [("a.example", 1), ("total", 1)])]⟩
    rfl (by decide)

/-- C5: `read_dump` is deterministic — two invocations on the same
well-formed dump content, each starting from a cleared cache, return
identical Aggregate Records. -/
theorem read_dump_deterministic (fs1 fs2 : FS) (n1 n2 : String) (text : String)
    (r1 r2 : List (String × Nat)) (g1 g2 : FS)
    (hc1 : fs1.cache = []) (hc2 : fs2.cache = [])
    (ht1 : dict_get fs1.dumps n1 = some text) (ht2 : dict_get fs2.dumps n2 = some text)
    (h1 : read_dump fs1 n1 = (some r1, g1)) (h2 : read_dump fs2 n2 = (some r2, g2)) :
    r1 = r2 := by
  unfold read_dump at h1 h2
  rw [hc1] at h1
  rw [hc2] at h2
  simp only [dict_get] at h1 h2
  simp only [ht1] at h1
  simp only [ht2] at h2
  cases hc : read_dump_compute text with
  | none =>
    simp only [hc] at h1
    exact absurd h1 (by simp)
  | some data =>
    simp only [hc] at h1
    simp only [hc] at h2
    simp only [Prod.mk.injEq, Option.some.injEq] at h1 h2
    rw [← h1.1, ← h2.1]

/-- C5 witness. -/
theorem read_dump_deterministic_witness :
    ([("z.org", 1), ("total", 1)] : List (String × Nat)) = [("z.org", 1), ("total", 1)] :=
  read_dump_deterministic
    ⟨[("shorturls-20190106.gz", "s|https://z.org/1")], []⟩
    ⟨[("shorturls-20190107.gz", "s|https://z.org/1")], []⟩
    "shorturls-20190106.gz" "shorturls-20190107.gz" "s|https://z.org/1"
    [("z.org", 1), ("total", 1)] [("z.org", 1), ("total", 1)]
    ⟨[("shorturls-20190106.gz", "s|https://z.org/1")],
     [("shorturls-20190106.gz.json", [("z.org", 1), ("total", 1)])]⟩
    ⟨[("shorturls-20190107.gz", "s|https://z.org/1")],
     [("shorturls-20190107.gz.json", [("z.org", 1), ("total", 1)])]⟩
    rfl rfl rfl rfl (by decide) (by decide)

/-- C8: if some line of the decompressed dump lacks a `|` separator, the
whole read fails — no Aggregate Record is returned and the filesystem
(in particular the cache) is unchanged. -/
theorem read_dump_malformed_atomic (fs : FS) (name text : String) (line : List Char)
    (hmiss : dict_get fs.cache (cached_name name) = none)
    (htext : dict_get fs.dumps name = some text)
    (hline : line ∈ splitlines text.data)
    (hnopipe : splitFirst '|' line = none) :
    read_dump fs name = (none, fs) := by
  have hbad : lineNetloc line = none := by
    unfold lineNetloc
    rw [hnopipe]
  have hfail := processLines_fail (splitlines text.data) line hline hbad []
  simp only [read_dump, read_dump_compute, hmiss, htext, hfail]

/-- C8 witness. -/
theorem read_dump_malformed_atomic_witness :
    read_dump ⟨[("shorturls-20190104.gz", "abc|https://x.org/1\nnopipe")], []⟩
        "shorturls-20190104.gz" =
      (none, ⟨[("shorturls-20190104.gz", "abc|https://x.org/1\nnopipe")], []⟩) :=
  read_dump_malformed_atomic
    ⟨[("shorturls-20190104.gz", "abc|https://x.org/1\nnopipe")], []⟩
    "shorturls-20190104.gz" "abc|https://x.org/1\nnopipe" "nopipe".data
    rfl rfl (by decide) rfl

/-- C9: on a cache miss, a dump whose decompressed content is empty yields
the Aggregate Record with the single entry total ↦ 0 and no per-domain
keys. -/
theorem read_dump_empty_content (fs : FS) (name : String)
    (hmiss : dict_get fs.cache (cached_name name) = none)
    (htext : dict_get fs.dumps name = some "") :
    (read_dump fs name).1 = some [("total", 0)] := by
  have hc : read_dump_compute "" = some [("total", 0)] := rfl
  simp [read_dump, hmiss, htext, hc]

/-- C9 witness. -/
theorem read_dump_empty_content_witness :
    (read_dump ⟨[("shorturls-20190105.gz", "")], []⟩ "shorturls-20190105.gz").1 =
      some [("total", 0)] :=
  read_dump_empty_content ⟨[("shorturls-20190105.gz", "")], []⟩ "shorturls-20190105.gz"
    rfl rfl

/-- C10: the Aggregate Record computed on a cache miss is invariant under
permutation of the dump's lines — whenever both orderings aggregate
successfully, the resulting mappings agree at every key. -/
theorem read_dump_compute_perm_invariant (t1 t2 : String)
    (r1 r2 : List (String × Nat))
    (hperm : (splitlines t1.data).Perm (splitlines t2.data))
    (h1 : read_dump_compute t1 = some r1) (h2 : read_dump_compute t2 = some r2) :
    ∀ k, dict_get r1 k = dict_get r2 k := by
  intro k
  unfold read_dump_compute at h1 h2
  cases hp1 : processLines [] (splitlines t1.data) with
  | none => rw [hp1] at h1; exact absurd h1 (by simp)
  | some d1 =>
    rw [hp1] at h1
    cases hp2 : processLines [] (splitlines t2.data) with
    | none => rw [hp2] at h2; exact absurd h2 (by simp)
    | some d2 =>
      rw [hp2] at h2
      simp only [Option.some.injEq] at h1 h2
      subst h1
      subst h2
      have hg1 := processLines_get (splitlines t1.data) [] d1 hp1 k
      have hg2 := processLines_get (splitlines t2.data) [] d2 hp2 k
      have hs1 := processLines_sum (splitlines t1.data) [] d1 hp1
      have hs2 := processLines_sum (splitlines t2.data) [] d2 hp2
      have hcount : ((splitlines t1.data).filterMap lineNetloc).count k =
          ((splitlines t2.data).filterMap lineNetloc).count k :=
        (hperm.filterMap lineNetloc).count_eq k
      have hlen : (splitlines t1.data).length = (splitlines t2.data).length :=
        hperm.length_eq
      rw [dict_get_dict_set, dict_get_dict_set]
      by_cases hk : k = "total"
      · rw [if_pos hk, if_pos hk, hs1, hs2, hlen]
      · rw [if_neg hk, if_neg hk, hg1, hg2, hcount]

/-- C10 witness. -/
theorem read_dump_compute_perm_invariant_witness :
    dict_get [("one.example", 1), ("two.example", 1), ("total", 2)] "one.example" =
      dict_get [("two.example", 1), ("one.example", 1), ("total", 2)] "one.example" :=
  read_dump_compute_perm_invariant
    "p|https://one.example/a\nq|https://two.example/b"
    "q|https://two.example/b\np|https://one.example/a"
    [("one.example", 1), ("two.example", 1), ("total", 2)]
    [("two.example", 1), ("one.example", 1), ("total", 2)]
    (by decide) rfl rfl "one.example"

/-! ### Claims about list_dumps / latest_dump -/

/-- C7: `latest_dump` returns the last element of `list_dumps` when that
sequence is non-empty, and fails with a lookup error (modelled by `none`)
when it is empty. -/
theorem latest_dump_last (files : List String) :
    (list_dumps files = [] → latest_dump files = none) ∧
    (∀ front x, list_dumps files = front ++ [x] → latest_dump files = some x) := by
  constructor
  · intro h
    unfold latest_dump
    rw [h]
    rfl
  · intro front x h
    unfold latest_dump
    rw [h]
    exact List.getLast?_concat front

/-- C7 witness. -/
theorem latest_dump_last_witness :
    latest_dump [] = none ∧
    latest_dump ["shorturls-20190101.gz", "shorturls-20190102.gz"] =
      some "shorturls-20190102.gz" :=
  ⟨(latest_dump_last []).1 rfl,
   (latest_dump_last ["shorturls-20190101.gz", "shorturls-20190102.gz"]).2
     ["shorturls-20190101.gz"] "shorturls-20190102.gz" (by decide)⟩

/-! ### Lexicographic order and digit strings, for C6 -/

theorem lex_append_left_iff {α : Type} (r : α → α → Prop) [IsIrrefl α r]
    (p l1 l2 : List α) :
    List.Lex r (p ++ l1) (p ++ l2) ↔ List.Lex r l1 l2 := by
  induction p with
  | nil => simp
  | cons c p ih =>
    rw [List.cons_append, List.cons_append, List.Lex.cons_iff]
    exact ih

theorem lex_append_of_length_eq {α : Type} {r : α → α → Prop} :
    ∀ {a b s t : List α}, a.length = b.length →
      List.Lex r (a ++ s) (b ++ t) → List.Lex r a b ∨ (a = b ∧ List.Lex r s t) := by
  intro a
  induction a with
  | nil =>
    intro b s t hlen h
    cases b with
    | nil => exact Or.inr ⟨rfl, h⟩
    | cons y ys => simp at hlen
  | cons x xs ih =>
    intro b s t hlen h
    cases b with
    | nil => simp at hlen
    | cons y ys =>
      simp only [List.length_cons] at hlen
      rw [List.cons_append, List.cons_append] at h
      cases h with
      | rel hr => exact Or.inl (List.Lex.rel hr)
      | cons h2 =>
        rcases ih (by omega) h2 with h3 | ⟨heq, h4⟩
        · exact Or.inl (List.Lex.cons h3)
        · exact Or.inr ⟨by rw [heq], h4⟩

theorem natOfDigits_acc (l : List Char) :
    ∀ n, natOfDigits l n = n * 10 ^ l.length + natOfDigits l 0 := by
  induction l with
  | nil => intro n; simp [natOfDigits]
  | cons c cs ih =>
    intro n
    simp only [natOfDigits, List.length_cons]
    rw [ih (n * 10 + digitVal c), ih (0 * 10 + digitVal c)]
    ring

theorem natOfDigits_cons (c : Char) (l : List Char) :
    natOfDigits (c :: l) 0 = digitVal c * 10 ^ l.length + natOfDigits l 0 := by
  show natOfDigits l (0 * 10 + digitVal c) = _
  rw [natOfDigits_acc]
  norm_num

theorem char_digit_toNat {c : Char} (h : c.isDigit = true) :
    48 ≤ c.toNat ∧ c.toNat ≤ 57 := by
  simp only [Char.isDigit, Bool.and_eq_true, decide_eq_true_eq] at h
  exact ⟨h.1, h.2⟩

theorem digitVal_le_nine {c : Char} (h : c.isDigit = true) : digitVal c ≤ 9 := by
  have hb := char_digit_toNat h
  unfold digitVal
  omega

theorem natOfDigits_lt_pow (l : List Char) (h : ∀ c ∈ l, c.isDigit = true) :
    natOfDigits l 0 < 10 ^ l.length := by
  induction l with
  | nil => simp [natOfDigits]
  | cons c cs ih =>
    have h1 : natOfDigits cs 0 < 10 ^ cs.length :=
      ih (fun c2 hc2 => h c2 (List.mem_cons_of_mem _ hc2))
    have h2 : digitVal c ≤ 9 := digitVal_le_nine (h c (List.mem_cons_self c cs))
    rw [natOfDigits_cons, List.length_cons, pow_succ]
    nlinarith

theorem natOfDigits_lt_of_lex :
    ∀ {a b : List Char}, a.length = b.length →
      (∀ c ∈ a, c.isDigit = true) → (∀ c ∈ b, c.isDigit = true) →
      List.Lex (· < ·) a b → natOfDigits a 0 < natOfDigits b 0 := by
  intro a
  induction a with
  | nil =>
    intro b hlen ha hb hlex
    cases hlex with
    | nil => simp at hlen
  | cons x xs ih =>
    intro b hlen ha hb hlex
    cases b with
    | nil => exact absurd hlex (List.Lex.not_nil_right _ _)
    | cons y ys =>
      simp only [List.length_cons] at hlen
      have hlen2 : xs.length = ys.length := by omega
      cases hlex with
      | rel hr =>
        have hx := char_digit_toNat (ha x (List.mem_cons_self x xs))
        have hy := char_digit_toNat (hb y (List.mem_cons_self y ys))
        have hlt : x.toNat < y.toNat := hr
        have hxy : digitVal x < digitVal y := by
          unfold digitVal
          omega
        have hxk : natOfDigits xs 0 < 10 ^ ys.length := by
          rw [← hlen2]
          exact natOfDigits_lt_pow xs (fun c2 hc2 => ha c2 (List.mem_cons_of_mem _ hc2))
        have hp : 0 < 10 ^ ys.length := pow_pos (by norm_num) _
        rw [natOfDigits_cons, natOfDigits_cons, hlen2]
        nlinarith
      | cons h2 =>
        have ihv := ih hlen2 (fun c2 hc2 => ha c2 (List.mem_cons_of_mem _ hc2))
          (fun c2 hc2 => hb c2 (List.mem_cons_of_mem _ hc2)) h2
        rw [natOfDigits_cons, natOfDigits_cons, hlen2]
        exact Nat.add_lt_add_left ihv _

theorem validDumpName_unpack {f : String} (h : validDumpName f = true) :
    f.data.length = 21 ∧ f.data.take 10 = "shorturls-".data ∧
      f.data.drop 18 = ".gz".data ∧ ∀ c ∈ (f.data.drop 10).take 8, c.isDigit = true := by
  simp only [validDumpName, Bool.and_eq_true, beq_iff_eq, List.all_eq_true] at h
  exact ⟨h.1.1.1, h.1.1.2, h.1.2, h.2⟩

theorem valid_matchesGlob {f : String} (h : validDumpName f = true) :
    matchesGlob f = true := by
  obtain ⟨hlen, hpre, hsuf, _⟩ := validDumpName_unpack h
  simp only [matchesGlob, Bool.and_eq_true, beq_iff_eq, decide_eq_true_eq]
  refine ⟨⟨hpre, ?_⟩, ?_⟩
  · rw [hlen]
    exact hsuf
  · omega

theorem valid_data_split {f : String} (h : validDumpName f = true) :
    f.data = "shorturls-".data ++ ((f.data.drop 10).take 8 ++ ".gz".data) := by
  obtain ⟨hlen, hpre, hsuf, _⟩ := validDumpName_unpack h
  have hdd : (f.data.drop 10).drop 8 = f.data.drop 18 := by
    rw [List.drop_drop]
  conv_lhs => rw [← List.take_append_drop 10 f.data,
    ← List.take_append_drop 8 (f.data.drop 10)]
  rw [hpre, hdd, hsuf]

theorem valid_datepart_data {f : String} (h : validDumpName f = true) :
    (datepart f).data = (f.data.drop 10).take 8 := by
  obtain ⟨hlen, _, _, _⟩ := validDumpName_unpack h
  simp only [datepart]
  rw [hlen]

theorem valid_datepart_length {f : String} (h : validDumpName f = true) :
    ((f.data.drop 10).take 8).length = 8 := by
  obtain ⟨hlen, _, _, _⟩ := validDumpName_unpack h
  rw [List.length_take, List.length_drop, hlen]
  omega

/-- For validly-named dump files, code-point order of the filenames is
compatible with numeric order of the embedded dates. -/
theorem dateNat_mono {a b : String} (ha : validDumpName a = true)
    (hb : validDumpName b = true) (hle : a ≤ b) : dateNat a ≤ dateNat b := by
  rcases hle.lt_or_eq with hlt | heqs
  · have hlex : List.Lex (· < ·) a.data b.data := by
      rw [String.lt_iff_toList_lt] at hlt
      exact hlt
    rw [valid_data_split ha, valid_data_split hb] at hlex
    rw [lex_append_left_iff] at hlex
    have hlens : ((a.data.drop 10).take 8).length = ((b.data.drop 10).take 8).length := by
      rw [valid_datepart_length ha, valid_datepart_length hb]
    rcases lex_append_of_length_eq hlens hlex with h3 | ⟨heq, _⟩
    · have hval := natOfDigits_lt_of_lex hlens (validDumpName_unpack ha).2.2.2
        (validDumpName_unpack hb).2.2.2 h3
      unfold dateNat
      rw [valid_datepart_data ha, valid_datepart_data hb]
      exact le_of_lt hval
    · unfold dateNat
      rw [valid_datepart_data ha, valid_datepart_data hb, heq]
  · rw [heqs]

/-- C6: for validly-named dump files, `list_dumps` is independent of the
enumeration order, returns a permutation of the matching files, is sorted
ascending by filename, and that order is non-decreasing in the embedded
dates. -/
theorem list_dumps_sorted_chrono (files files2 : List String)
    (hv : ∀ f ∈ files, validDumpName f = true) (hp : files.Perm files2) :
    list_dumps files = list_dumps files2 ∧
    (list_dumps files).Perm files ∧
    List.Sorted (fun a b : String => a ≤ b) (list_dumps files) ∧
    (list_dumps files).Pairwise (fun a b => dateNat a ≤ dateNat b) := by
  have hsorted : ∀ l : List String,
      List.Sorted (fun a b : String => a ≤ b) (list_dumps l) := fun l =>
    @List.sorted_insertionSort String (fun a b => a ≤ b) strLeDec
      inferInstance inferInstance (l.filter matchesGlob)
  have hperm1 : (list_dumps files).Perm (files.filter matchesGlob) :=
    @List.perm_insertionSort String (fun a b => a ≤ b) strLeDec (files.filter matchesGlob)
  have hperm2 : (list_dumps files2).Perm (files2.filter matchesGlob) :=
    @List.perm_insertionSort String (fun a b => a ≤ b) strLeDec (files2.filter matchesGlob)
  have hfilter : files.filter matchesGlob = files :=
    List.filter_eq_self.mpr (fun f hf => valid_matchesGlob (hv f hf))
  have hpermf : (list_dumps files).Perm files := by
    rw [hfilter] at hperm1
    exact hperm1
  refine ⟨?_, hpermf, hsorted files, ?_⟩
  · exact List.eq_of_perm_of_sorted
      (hperm1.trans ((List.Perm.filter matchesGlob hp).trans hperm2.symm))
      (hsorted files) (hsorted files2)
  · exact List.Pairwise.imp_of_mem
      (fun hx hy hxy => dateNat_mono (hv _ (hpermf.subset hx)) (hv _ (hpermf.subset hy)) hxy)
      (hsorted files)

/-- C6 witness. -/
theorem list_dumps_sorted_chrono_witness :
    list_dumps ["shorturls-20190102.gz", "shorturls-20190101.gz"] =
      list_dumps ["shorturls-20190101.gz", "shorturls-20190102.gz"] ∧
    (list_dumps ["shorturls-20190102.gz", "shorturls-20190101.gz"]).Perm
      ["shorturls-20190102.gz", "shorturls-20190101.gz"] ∧
    List.Sorted (fun a b : String => a ≤ b)
      (list_dumps ["shorturls-20190102.gz", "shorturls-20190101.gz"]) ∧
    (list_dumps ["shorturls-20190102.gz", "shorturls-20190101.gz"]).Pairwise
      (fun a b => dateNat a ≤ dateNat b) :=
  list_dumps_sorted_chrono ["shorturls-20190102.gz", "shorturls-20190101.gz"]
    ["shorturls-20190101.gz", "shorturls-20190102.gz"] (by decide) (by decide)

end ShortURLs
